import Mathlib

/-!
# Verification of the image-filtering engine (imagefiltering.py)

Shallow embedding of the filtering core of `src/SCC5830/ex2/src/imagefiltering.py`.

Modelling conventions:
* A raster (`Mat`) is a list of rows of rationals.  The source computes with
  numpy `uint8`/`int32`/`float64` values; every operation exercised by the
  claims (sums, products, divisions, comparisons, sorting) is exact on the
  integer/rational inputs involved, so values are embedded as `ℚ`.
* Imperative numpy loops `for i in range(a,b): for j in range(c,d): dst[..] = v`
  are embedded as folds (`filterLoop`) over the explicit index lists
  `List.range' a (b-a)`, carrying the pair (read array, write array) of the
  two distinct numpy arrays the source allocates (`np.copy`, `np.zeros`,
  `astype` all create fresh storage).
* Statements the Python runtime aborts with an exception
  (numpy broadcast `ValueError`, `IndexError`, `ZeroDivisionError`) are
  embedded as `Option`/`none`; each `none` branch is annotated with the
  exception it models.
* The unbounded `while True` of `find_optimum_threshold` is embedded with an
  explicit fuel parameter; `none` for fuel exhaustion.
-/

/-- A raster: list of rows of rational samples. -/
abbrev Mat := List (List ℚ)

/-- Cell read `m[i][j]` (0 outside bounds; the source loops never read out of
bounds in the cases the claims exercise). -/
def mget (m : Mat) (i j : ℕ) : ℚ := (m.getD i []).getD j 0

/-- Cell write `m[i][j] = v` (no-op outside bounds, matching `List.set`). -/
def mset (m : Mat) (i j : ℕ) (v : ℚ) : Mat := m.set i ((m.getD i []).set j v)

/-- Well-formed `H×W` raster: `H` rows, each of width `W`. -/
def WfMat (m : Mat) (H W : ℕ) : Prop := m.length = H ∧ ∀ r ∈ m, r.length = W

/-- `img.shape[1]`: width taken from the first row. -/
def mwidth (m : Mat) : ℕ := (m.headD []).length

/-- Row-major flattening, `np.reshape(img, H*W)`. -/
def mflatten (m : Mat) : List ℚ := m.flatten

/-- `H×W` matrix built from a cell function (denotation of a freshly filled
numpy array). -/
def matOfFn (H W : ℕ) (f : ℕ → ℕ → ℚ) : Mat :=
  (List.range' 0 H).map (fun i => (List.range' 0 W).map (fun j => f i j))

/-- One iteration body `dst[i-off][j-off] = v src i j` over the state
(read array, write array).  `off` is the index shift between loop variable and
write target (`0` for the threshold and convolution loops, `padding` for the
median loop which writes `new_img[i-padding][j-padding]`). -/
def cellWrite (off : ℕ) (v : Mat → ℕ → ℕ → ℚ) (st : Mat × Mat) (i j : ℕ) :
    Mat × Mat :=
  (st.1, mset st.2 (i - off) (j - off) (v st.1 i j))

/-- Inner `for j in cols` loop at row variable `i`. -/
def rowLoop (off : ℕ) (v : Mat → ℕ → ℕ → ℚ) (i : ℕ) (cols : List ℕ)
    (st : Mat × Mat) : Mat × Mat :=
  cols.foldl (fun s j => cellWrite off v s i j) st

/-- Outer `for i in rows: for j in cols` double loop. -/
def filterLoop (off : ℕ) (v : Mat → ℕ → ℕ → ℚ) (rows cols : List ℕ)
    (st : Mat × Mat) : Mat × Mat :=
  rows.foldl (fun s i => rowLoop off v i cols s) st

/-- `IMGFiltering.find_optimum_threshold`, one iteration of the `while` body:
partition all cells into `g1` (value `> t`, the `if` branch) and `g2`
(value `≤ t`, the `else` branch) and average the two means.
`none` models the `ZeroDivisionError` raised when a group is empty. -/
def threshold_step (img : Mat) (t : ℚ) : Option ℚ :=
  let cells := mflatten img
  let g1 := cells.filter (fun v => decide (t < v))
  let g2 := cells.filter (fun v => decide (v ≤ t))
  if g1.length = 0 ∨ g2.length = 0 then none
  else some ((g1.sum / (g1.length : ℚ) + g2.sum / (g2.length : ℚ)) / 2)

/-- `IMGFiltering.find_optimum_threshold`: iterate `threshold_step` from the
seed; return `new_t` as soon as `new_t - optimum_t ≤ 0.5` (the source compares
the signed difference, not the absolute value).  The source loop is unbounded
(`while True`); `fuel` makes the embedding total, `none` = not yet returned. -/
def find_optimum_threshold : ℕ → Mat → ℚ → Option ℚ
  | 0, _, _ => none
  | Nat.succ fuel, img, t =>
    match threshold_step img t with
    | none => none
    | some t1 => if t1 - t ≤ 1/2 then some t1 else find_optimum_threshold fuel img t1

/-- `IMGFiltering.limiar_filter` write-back loop: state starts at
(`img`, `np.copy(img)`); every cell of the copy is overwritten with
1 if `img[i][j] > t` else 0, reading from `img`. -/
def limiar_run (t : ℚ) (img : Mat) : Mat × Mat :=
  filterLoop 0 (fun src i j => if t < mget src i j then 1 else 0)
    (List.range' 0 img.length) (List.range' 0 (mwidth img)) (img, img)

/-- `IMGFiltering.limiar_filter`: find the optimum threshold, then binarize. -/
def limiar_filter (fuel : ℕ) (t0 : ℚ) (img : Mat) : Option Mat :=
  (find_optimum_threshold fuel img t0).map (fun t => (limiar_run t img).2)

/-- `LimiarFilter2D.simple_filter` cell value:
`np.sum(np.multiply(np.flip(np.flip(weights,0),1), img[i-p:i+p+1, j-p:j+p+1]))`
with `p = (size-1)/2`; the doubly flipped kernel is
`weights[size-1-a][size-1-b]`. -/
def conv2_sum (weights : Mat) (size : ℕ) (src : Mat) (i j : ℕ) : ℚ :=
  ((List.range' 0 size).map (fun a =>
    ((List.range' 0 size).map (fun b =>
      mget weights (size - 1 - a) (size - 1 - b) *
        mget src (i - (size - 1) / 2 + a) (j - (size - 1) / 2 + b))).sum)).sum

/-- `LimiarFilter2D.simple_filter` loop: state starts at
(`img.astype(np.int32)`, `np.copy(img)`) — equal as values, distinct storage —
and only interior indices `range(p, dim-p)` are written, reading from `img`. -/
def simple_run (size : ℕ) (weights : Mat) (img : Mat) : Mat × Mat :=
  filterLoop 0 (fun src i j => conv2_sum weights size src i j)
    (List.range' ((size - 1) / 2) (img.length - (size - 1) / 2 - (size - 1) / 2))
    (List.range' ((size - 1) / 2) (mwidth img - (size - 1) / 2 - (size - 1) / 2))
    (img, img)

/-- `LimiarFilter2D.simple_filter`: the written array after the loop. -/
def simple_filter (size : ℕ) (weights : Mat) (img : Mat) : Mat :=
  (simple_run size weights img).2

/-- `LimiarFilter2D.apply_filter`: 2D convolution then threshold filter with
the construction-time seed `t0`. -/
def limiar2d_apply (fuel size : ℕ) (weights : Mat) (t0 : ℚ) (img : Mat) :
    Option Mat :=
  limiar_filter fuel t0 (simple_filter size weights img)

/-- `MedianFilter2D.apply_filter` padded array:
`aux_img = np.zeros((H+2p, W+2p)); aux_img[p:-p, p:-p] = img` (for `p ≥ 1`). -/
def median_aux (p : ℕ) (img : Mat) : Mat :=
  matOfFn (img.length + 2 * p) (mwidth img + 2 * p) (fun i j =>
    if p ≤ i ∧ i < img.length + p ∧ p ≤ j ∧ j < mwidth img + p
    then mget img (i - p) (j - p) else 0)

/-- `aux_img[i-p:i+p+1, j-p:j+p+1].reshape(size*size)`: the `size×size`
window of `src` centred at `(i, j)`, row-major. -/
def median_neighborhood (src : Mat) (p size i j : ℕ) : List ℚ :=
  ((List.range' 0 size).map (fun a =>
    (List.range' 0 size).map (fun b => mget src (i - p + a) (j - p + b)))).flatten

/-- `MedianFilter2D.apply_filter` loop (for `p = (size-1)/2 ≥ 1`):
iterates `i in range(p, H+1)`, `j in range(p, W+1)` — note the source's `+ 1`
upper bound, not `+ padding` — writing
`new_img[i-p][j-p] = sorted(neighborhood)[middle]` with
`middle = (size²-1)/2`, reading from the padded array. -/
def median_run (size : ℕ) (img : Mat) : Mat × Mat :=
  filterLoop ((size - 1) / 2)
    (fun src i j =>
      (List.insertionSort (fun u w => u ≤ w)
        (median_neighborhood src ((size - 1) / 2) size i j)).getD
        ((size * size - 1) / 2) 0)
    (List.range' ((size - 1) / 2) (img.length + 1 - (size - 1) / 2))
    (List.range' ((size - 1) / 2) (mwidth img + 1 - (size - 1) / 2))
    (median_aux ((size - 1) / 2) img,
      matOfFn img.length (mwidth img) (fun _ _ => 0))

/-- `MedianFilter2D.apply_filter`.  For `p = 0` (`size ≤ 2`) the assignment
`aux_img[0:-0, 0:-0] = img` targets an empty slice and numpy raises a
broadcast `ValueError` for any nonempty raster (and the subsequent loop would
index `new_img[H]` out of range): modelled as `none`. -/
def median_apply (size : ℕ) (img : Mat) : Option Mat :=
  if (size - 1) / 2 = 0 then none else some (median_run size img).2

/-- `Filter1D.create_circular_array` with `p = (size-1)/2`, `aux` the
row-major flattening (length `N`):
* `p = 0`: `img_1D[-0:] = aux[0:0]` assigns an empty source to the whole
  length-`N` target — numpy broadcast `ValueError` unless `N = 0`;
* `p ≤ N`: `aux[-p:] ++ aux ++ aux[:p]` (last `p`, all, first `p`);
* `N = 1 < p`: the length-1 sources broadcast (replicate) into the length-`p`
  border slices;
* `2 ≤ N < p`: `img_1D[0:p] = aux[-p:]` assigns length `N ∉ {1, p}` into
  length `p` — broadcast `ValueError`. -/
def create_circular_array (size : ℕ) (img : Mat) : Option (List ℚ) :=
  if (size - 1) / 2 = 0 then
    (if (mflatten img).length = 0 then some [] else none)
  else if (size - 1) / 2 ≤ (mflatten img).length then
    some ((mflatten img).drop ((mflatten img).length - (size - 1) / 2) ++
      mflatten img ++ (mflatten img).take ((size - 1) / 2))
  else if (mflatten img).length = 1 then
    some (List.replicate ((size - 1) / 2) ((mflatten img).getD 0 0) ++
      mflatten img ++ List.replicate ((size - 1) / 2) ((mflatten img).getD 0 0))
  else none

/-- Elementwise product then sum: `sum(np.multiply(w, v))`. -/
def dotp (w v : List ℚ) : ℚ := (List.zipWith (fun a b => a * b) w v).sum

/-- `Filter1D.apply_filter` result vector: `result = np.zeros(H*W)`, then
`for k in range(padding, H*W + 1): result[k-1] = sum(np.multiply(np.flip(weights),
img_1D[k-1 : k+size-1]))` — note the loop starts at `k = padding`, so flat
indices `0 .. padding-2` are never written. -/
def filter1d_result (size : ℕ) (weights : List ℚ) (img : Mat)
    (img1D : List ℚ) : List ℚ :=
  (List.range' ((size - 1) / 2) (img.length * mwidth img + 1 - (size - 1) / 2)).foldl
    (fun res k => res.set (k - 1) (dotp weights.reverse ((img1D.drop (k - 1)).take size)))
    (List.replicate (img.length * mwidth img) 0)

/-- `Filter1D.apply_filter`: circularly pad the flattened raster, convolve,
reshape back to `H×W` (`np.reshape(result, img.shape)`). -/
def filter1d_apply (size : ℕ) (weights : List ℚ) (img : Mat) : Option Mat :=
  (create_circular_array size img).map (fun img1D =>
    matOfFn img.length (mwidth img)
      (fun i j => (filter1d_result size weights img img1D).getD
        (i * mwidth img + j) 0))

/-- The four classes `FilterFactory.init_filter` can instantiate. -/
inductive FilterKind where
  | limiarK : FilterKind
  | f1dK : FilterKind
  | limiar2dK : FilterKind
  | medianK : FilterKind
deriving DecidableEq

/-- `FilterFactory.init_filter`: dispatch on the method id alone; it receives
no parameters and performs no validation.  Python implicitly returns `None`
for any other id. -/
def init_filter : ℕ → Option FilterKind
  | 1 => some FilterKind.limiarK
  | 2 => some FilterKind.f1dK
  | 3 => some FilterKind.limiar2dK
  | 4 => some FilterKind.medianK
  | _ => none

/-- `Filter1D.__init__` on already-tokenized numeric inputs: `weights =
np.zeros(size)`, then `weights[i] = tokens[i]` for each token.  More tokens
than `size` hits `weights[i]` with `i ≥ size`: an unhandled numpy
`IndexError`, modelled as `none`.  Fewer tokens leave the remaining weights
silently at 0.  No oddness or positivity check is performed. -/
def filter1d_init (size : ℕ) (tokens : List ℚ) : Option (ℕ × List ℚ) :=
  if size < tokens.length then none
  else some (size, tokens ++ List.replicate (size - tokens.length) 0)

/-- `img1 - img2` with 2D numpy broadcasting: compatible iff each dimension
pair is equal or one of them is 1; a size-1 dimension is indexed at 0.
`none` models the broadcast `ValueError` for incompatible shapes. -/
def np_sub (a b : Mat) : Option Mat :=
  if (a.length = b.length ∨ a.length = 1 ∨ b.length = 1) ∧
      (mwidth a = mwidth b ∨ mwidth a = 1 ∨ mwidth b = 1) then
    some (matOfFn (if a.length = 1 then b.length else a.length)
      (if mwidth a = 1 then mwidth b else mwidth a)
      (fun i j =>
        mget a (if a.length = 1 then 0 else i) (if mwidth a = 1 then 0 else j) -
        mget b (if b.length = 1 then 0 else i) (if mwidth b = 1 then 0 else j)))
  else none

/-- `IMGFiltering.calc_rmse` up to its final strictly monotone real-valued
postprocessing: the source computes
`mse = np.sum(np.multiply(img1-img2, img1-img2)) / (img1.shape[0]*img1.shape[1])`
and returns `round(sqrt(mse), 4)`.  The claims about `calc_rmse` concern only
success versus failure and shape handling, which are decided entirely by the
`img1 - img2` broadcast, so the embedding returns the exact `mse` value. -/
def calc_rmse_core (img1 img2 : Mat) : Option ℚ :=
  (np_sub img1 img2).map (fun d =>
    (mflatten (d.map (fun row => row.map (fun x => x * x)))).sum /
      ((img1.length : ℚ) * (mwidth img1 : ℚ)))

/-- Spec-side definition, from the wording of claim C1: the element at index
`(size²-1)/2` of the ascending sort of the `size×size` neighborhood centred at
`(i, j)` of the input raster zero-padded by `(size-1)/2` on all four sides. -/
def median_spec (size : ℕ) (img : Mat) (i j : ℕ) : ℚ :=
  (List.insertionSort (fun u w => u ≤ w)
    (((List.range' 0 size).map (fun a =>
      (List.range' 0 size).map (fun b =>
        if (size - 1) / 2 ≤ i + a ∧ i + a < img.length + (size - 1) / 2 ∧
            (size - 1) / 2 ≤ j + b ∧ j + b < mwidth img + (size - 1) / 2
        then mget img (i + a - (size - 1) / 2) (j + b - (size - 1) / 2)
        else 0))).flatten)).getD ((size * size - 1) / 2) 0

/-- Spec-side definition, from the wording of claim C2: circularly pad the
whole row-major flattening with its last `(size-1)/2` elements in front and
its first `(size-1)/2` elements behind, then every output flat index `k` is
the dot product of the reversed kernel with the `size` padded elements
centred at `k`. -/
def filter1d_spec (size : ℕ) (weights : List ℚ) (img : Mat) : Mat :=
  matOfFn img.length (mwidth img) (fun i j =>
    dotp weights.reverse
      ((((mflatten img).drop ((mflatten img).length - (size - 1) / 2) ++
        mflatten img ++ (mflatten img).take ((size - 1) / 2)).drop
        (i * mwidth img + j)).take size))

/-! ## List-level helper lemmas -/

theorem set_getD_ne {α : Type} (l : List α) (d v : α) (i x : ℕ) (h : i ≠ x) :
    (l.set i v).getD x d = l.getD x d := by
  induction l generalizing i x with
  | nil => rfl
  | cons a t ih =>
    cases i with
    | zero =>
      cases x with
      | zero => exact absurd rfl h
      | succ x => rfl
    | succ i =>
      cases x with
      | zero => rfl
      | succ x =>
        simp only [List.set, List.getD_cons_succ]
        exact ih i x (fun hh => h (by omega))

theorem set_getD_self {α : Type} (l : List α) (d v : α) (i : ℕ)
    (h : i < l.length) : (l.set i v).getD i d = v := by
  induction l generalizing i with
  | nil => simp at h
  | cons a t ih =>
    cases i with
    | zero => rfl
    | succ i =>
      simp only [List.set, List.getD_cons_succ]
      exact ih i (by simpa using h)

theorem set_of_len_le {α : Type} (l : List α) (v : α) (i : ℕ)
    (h : l.length ≤ i) : l.set i v = l := by
  induction l generalizing i with
  | nil => rfl
  | cons a t ih =>
    cases i with
    | zero => simp at h
    | succ i =>
      simp only [List.set, List.cons.injEq, true_and]
      exact ih i (by simpa using h)

theorem getD_mem {α : Type} (l : List α) (d : α) (i : ℕ) (h : i < l.length) :
    l.getD i d ∈ l := by
  induction l generalizing i with
  | nil => simp at h
  | cons a t ih =>
    cases i with
    | zero => exact List.mem_cons_self a t
    | succ i =>
      exact List.mem_cons_of_mem a (ih i (by simpa using h))

theorem length_range_aux (s n : ℕ) : (List.range' s n).length = n := by
  induction n generalizing s with
  | zero => rfl
  | succ n ih =>
    show (s :: List.range' (s + 1) n).length = n + 1
    simp [ih (s + 1)]

/-! ## Matrix helper lemmas -/

theorem row_len (m : Mat) (H W i : ℕ) (hwf : WfMat m H W) (hi : i < H) :
    (m.getD i []).length = W :=
  hwf.2 _ (getD_mem m [] i (by rw [hwf.1]; exact hi))

theorem mget_mset_self (m : Mat) (H W : ℕ) (hwf : WfMat m H W) (i j : ℕ)
    (v : ℚ) (hi : i < H) (hj : j < W) : mget (mset m i j v) i j = v := by
  unfold mget mset
  rw [set_getD_self _ _ _ _ (by rw [hwf.1]; exact hi)]
  exact set_getD_self _ _ _ _ (by rw [row_len m H W i hwf hi]; exact hj)

theorem mget_mset_ne (m : Mat) (i j x y : ℕ) (v : ℚ) (h : i ≠ x ∨ j ≠ y) :
    mget (mset m i j v) x y = mget m x y := by
  unfold mget mset
  rcases h with h | h
  · rw [set_getD_ne _ _ _ _ _ h]
  · by_cases hix : i = x
    · subst hix
      by_cases hlen : i < m.length
      · rw [set_getD_self _ _ _ _ hlen]
        exact set_getD_ne _ _ _ _ _ h
      · rw [set_of_len_le _ _ _ (by omega)]
    · rw [set_getD_ne _ _ _ _ _ hix]

theorem WfMat_mset (m : Mat) (H W : ℕ) (hwf : WfMat m H W) (i j : ℕ) (v : ℚ) :
    WfMat (mset m i j v) H W := by
  unfold mset
  by_cases hi : i < m.length
  · refine ⟨by simpa using hwf.1, ?_⟩
    intro r hr
    rcases List.mem_or_eq_of_mem_set hr with hr | hr
    · exact hwf.2 _ hr
    · subst hr
      rw [List.length_set]
      exact hwf.2 _ (getD_mem _ _ _ hi)
  · rw [set_of_len_le _ _ _ (by omega)]
    exact hwf

theorem mwidth_le (m : Mat) (H W : ℕ) (hwf : WfMat m H W) : mwidth m ≤ W := by
  cases m with
  | nil => simp [mwidth]
  | cons r t =>
    have hr : r.length = W := hwf.2 r (List.mem_cons_self r t)
    simp [mwidth, hr]

theorem mwidth_eq (m : Mat) (H W : ℕ) (hwf : WfMat m H W) (hH : 0 < H) :
    mwidth m = W := by
  cases m with
  | nil =>
    rw [← hwf.1] at hH
    simp at hH
  | cons r t => exact hwf.2 r (List.mem_cons_self r t)

theorem WfMat_matOfFn (H W : ℕ) (f : ℕ → ℕ → ℚ) : WfMat (matOfFn H W f) H W := by
  constructor
  · simp [matOfFn, length_range_aux]
  · intro r hr
    simp only [matOfFn, List.mem_map] at hr
    obtain ⟨i, _, rfl⟩ := hr
    simp [length_range_aux]

/-! ## Loop characterization lemmas -/

theorem rowLoop_fst (off : ℕ) (v : Mat → ℕ → ℕ → ℚ) (i : ℕ) (cols : List ℕ)
    (st : Mat × Mat) : (rowLoop off v i cols st).1 = st.1 := by
  induction cols generalizing st with
  | nil => rfl
  | cons c cs ih => exact ih (cellWrite off v st i c)

theorem filterLoop_fst (off : ℕ) (v : Mat → ℕ → ℕ → ℚ) (rows cols : List ℕ)
    (st : Mat × Mat) : (filterLoop off v rows cols st).1 = st.1 := by
  induction rows generalizing st with
  | nil => rfl
  | cons r rs ih =>
    calc (filterLoop off v rs cols (rowLoop off v r cols st)).1
        = (rowLoop off v r cols st).1 := ih _
      _ = st.1 := rowLoop_fst off v r cols st

theorem rowLoop_wf (off : ℕ) (v : Mat → ℕ → ℕ → ℚ) (i : ℕ) (cols : List ℕ)
    (st : Mat × Mat) (H W : ℕ) (hwf : WfMat st.2 H W) :
    WfMat (rowLoop off v i cols st).2 H W := by
  induction cols generalizing st with
  | nil => exact hwf
  | cons c cs ih => exact ih (cellWrite off v st i c) (WfMat_mset _ _ _ hwf _ _ _)

theorem filterLoop_wf (off : ℕ) (v : Mat → ℕ → ℕ → ℚ) (rows cols : List ℕ)
    (st : Mat × Mat) (H W : ℕ) (hwf : WfMat st.2 H W) :
    WfMat (filterLoop off v rows cols st).2 H W := by
  induction rows generalizing st with
  | nil => exact hwf
  | cons r rs ih =>
    exact ih (rowLoop off v r cols st) (rowLoop_wf off v r cols st H W hwf)

theorem rowLoop_get (off : ℕ) (v : Mat → ℕ → ℕ → ℚ) (i c m : ℕ)
    (st : Mat × Mat) (H W : ℕ) (hwf : WfMat st.2 H W) (hoff : off ≤ c)
    (hiH : i - off < H) (hcW : c + m ≤ W + off ∨ m = 0) (x y : ℕ) :
    mget (rowLoop off v i (List.range' c m) st).2 x y =
      if x = i - off ∧ c ≤ y + off ∧ y + off < c + m then v st.1 i (y + off)
      else mget st.2 x y := by
  induction m generalizing c st with
  | zero =>
    rw [if_neg (by omega)]
    rfl
  | succ m ih =>
    rcases hcW with hcW | hcW
    swap
    · omega
    have hcons : List.range' c (m + 1) = c :: List.range' (c + 1) m := rfl
    rw [hcons]
    have hstep : rowLoop off v i (c :: List.range' (c + 1) m) st
        = rowLoop off v i (List.range' (c + 1) m) (cellWrite off v st i c) := rfl
    rw [hstep]
    rw [ih (c + 1) (cellWrite off v st i c)
      (WfMat_mset _ _ _ hwf _ _ _) (by omega) (Or.inl (by omega))]
    simp only [cellWrite]
    by_cases hx : x = i - off
    · by_cases hy : y + off = c
      · rw [if_neg (by omega), if_pos (by omega)]
        have hyy : y = c - off := by omega
        subst hx
        rw [hyy]
        rw [mget_mset_self st.2 H W hwf (i - off) (c - off) _ hiH (by omega)]
        congr 1
        omega
      · by_cases h3 : c + 1 ≤ y + off ∧ y + off < c + 1 + m
        · rw [if_pos ⟨hx, h3.1, h3.2⟩, if_pos (by omega)]
        · rw [if_neg (by omega), if_neg (by omega)]
          exact mget_mset_ne st.2 _ _ _ _ _ (Or.inr (by omega))
    · rw [if_neg (by omega), if_neg (by omega)]
      exact mget_mset_ne st.2 _ _ _ _ _ (Or.inl (by omega))

theorem filterLoop_get (off : ℕ) (v : Mat → ℕ → ℕ → ℚ) (a n c m : ℕ)
    (st : Mat × Mat) (H W : ℕ) (hwf : WfMat st.2 H W) (hoa : off ≤ a)
    (hoc : off ≤ c) (haH : a + n ≤ H + off ∨ n = 0)
    (hcW : c + m ≤ W + off ∨ m = 0) (x y : ℕ) :
    mget (filterLoop off v (List.range' a n) (List.range' c m) st).2 x y =
      if a ≤ x + off ∧ x + off < a + n ∧ c ≤ y + off ∧ y + off < c + m
      then v st.1 (x + off) (y + off) else mget st.2 x y := by
  induction n generalizing a st with
  | zero =>
    rw [if_neg (by omega)]
    rfl
  | succ n ih =>
    rcases haH with haH | haH
    swap
    · omega
    have hcons : List.range' a (n + 1) = a :: List.range' (a + 1) n := rfl
    rw [hcons]
    have hstep : filterLoop off v (a :: List.range' (a + 1) n) (List.range' c m) st
        = filterLoop off v (List.range' (a + 1) n) (List.range' c m)
            (rowLoop off v a (List.range' c m) st) := rfl
    rw [hstep]
    have hwf1 : WfMat (rowLoop off v a (List.range' c m) st).2 H W :=
      rowLoop_wf off v a (List.range' c m) st H W hwf
    rw [ih (a + 1) (rowLoop off v a (List.range' c m) st) hwf1 (by omega)
      (Or.inl (by omega))]
    rw [rowLoop_fst off v a (List.range' c m) st]
    rw [rowLoop_get off v a c m st H W hwf hoc (by omega) hcW x y]
    by_cases hxa : x + off = a
    · rw [if_neg (by omega)]
      by_cases hycm : c ≤ y + off ∧ y + off < c + m
      · rw [if_pos (by omega), if_pos (by omega)]
        have : a = x + off := by omega
        rw [this]
      · rw [if_neg (by omega), if_neg (by omega)]
    · by_cases hrest : a + 1 ≤ x + off ∧ x + off < a + 1 + n ∧ c ≤ y + off ∧ y + off < c + m
      · rw [if_pos hrest, if_pos (by omega)]
      · rw [if_neg hrest, if_neg (by omega), if_neg (by omega)]

/-! ## Shape-preservation helpers -/

theorem WfMat_matOfFn_img (H W : ℕ) (img : Mat) (hwf : WfMat img H W)
    (f : ℕ → ℕ → ℚ) : WfMat (matOfFn img.length (mwidth img) f) H W := by
  rcases Nat.eq_zero_or_pos H with h0 | hpos
  · subst h0
    have himg : img = [] := List.length_eq_zero.mp hwf.1
    subst himg
    exact ⟨rfl, by simp [matOfFn]⟩
  · rw [hwf.1, mwidth_eq img H W hwf hpos]
    exact WfMat_matOfFn H W f

theorem limiar_filter_wf (fuel : ℕ) (t0 : ℚ) (img : Mat) (H W : ℕ) (out : Mat)
    (hwf : WfMat img H W) (h : limiar_filter fuel t0 img = some out) :
    WfMat out H W := by
  unfold limiar_filter at h
  cases hfind : find_optimum_threshold fuel img t0 with
  | none => rw [hfind] at h; simp at h
  | some t =>
    rw [hfind] at h
    simp only [Option.map_some', Option.some.injEq] at h
    subst h
    exact filterLoop_wf _ _ _ _ _ H W hwf

/-- C5 (amended): whenever any of the four filter variants returns a raster at
all, that raster has exactly the `H×W` shape of the input; the claim's
assertion that this happens for every odd kernel size `K ≥ 1` fails, because
for `K = 1` the 1D-convolution and median variants abort with a numpy
broadcast error instead of returning a raster (see the counterexample). -/
theorem filters_preserve_shape (H W : ℕ) (img : Mat) (hwf : WfMat img H W) :
    (∀ fuel t0 out, limiar_filter fuel t0 img = some out → WfMat out H W) ∧
    (∀ size weights out, filter1d_apply size weights img = some out →
      WfMat out H W) ∧
    (∀ fuel size weights t0 out,
      limiar2d_apply fuel size weights t0 img = some out → WfMat out H W) ∧
    (∀ size out, median_apply size img = some out → WfMat out H W) := by
  refine ⟨?_, ?_, ?_, ?_⟩
  · intro fuel t0 out h
    exact limiar_filter_wf fuel t0 img H W out hwf h
  · intro size weights out h
    unfold filter1d_apply at h
    cases hc : create_circular_array size img with
    | none => rw [hc] at h; simp at h
    | some img1D =>
      rw [hc] at h
      simp only [Option.map_some', Option.some.injEq] at h
      subst h
      exact WfMat_matOfFn_img H W img hwf _
  · intro fuel size weights t0 out h
    unfold limiar2d_apply at h
    exact limiar_filter_wf fuel t0 _ H W out
      (filterLoop_wf _ _ _ _ _ H W hwf) h
  · intro size out h
    unfold median_apply at h
    by_cases hp : (size - 1) / 2 = 0
    · rw [if_pos hp] at h; simp at h
    · rw [if_neg hp] at h
      have h2 := Option.some.inj h
      subst h2
      exact filterLoop_wf _ _ _ _ _ H W (WfMat_matOfFn_img H W img hwf _)

/-- C5 witness: the shape theorem instantiated on the 2×2 raster of the spec's
concrete scenario and the K = 3 median filter. -/
theorem filters_preserve_shape_witness :
    WfMat ((median_apply 3 [[10, 20], [30, 40]]).getD []) 2 2 :=
  (filters_preserve_shape 2 2 [[10, 20], [30, 40]] ⟨rfl, by decide⟩).2.2.2 3
    ((median_apply 3 [[10, 20], [30, 40]]).getD []) (by decide)

/-- C5 counterexample: with the "valid" odd kernel size K = 1 the
1D-convolution filter does not return a raster at all — `create_circular_array`
hits a numpy broadcast `ValueError` — refuting the claim that every variant
returns a same-shaped raster for every odd K ≥ 1. -/
theorem filter1d_size_one_counterexample :
    filter1d_apply 1 [1] [[1, 2], [3, 4]] = none ∧ Odd 1 :=
  ⟨by decide, 0, by decide⟩

/-- C10: each imperative filter loop cited by the claim (threshold write-back,
2D convolution, median) writes only the freshly allocated output array: the
read-array component of the loop state — the input raster itself for the
threshold and convolution loops, the padded copy built from the input for the
median loop — is left exactly equal to its original value, so reading the
input after a filter pass yields exactly its original values and every
neighborhood value read during the pass is an original, uncorrupted one. -/
theorem filters_fresh_output_storage (t : ℚ) (size : ℕ) (weights img : Mat) :
    (limiar_run t img).1 = img ∧ (simple_run size weights img).1 = img ∧
      (median_run size img).1 = median_aux ((size - 1) / 2) img :=
  ⟨filterLoop_fst _ _ _ _ _, filterLoop_fst _ _ _ _ _,
    filterLoop_fst _ _ _ _ _⟩

/-- C6: whenever the threshold filter returns, every cell of its output is
exactly 0 or 1, and a cell is 1 exactly when the corresponding input value is
strictly greater than the converged threshold produced by the solver. -/
theorem thresholdFilter_binary_cells (fuel : ℕ) (t0 t : ℚ) (img out : Mat)
    (H W i j : ℕ) (hwf : WfMat img H W)
    (ht : find_optimum_threshold fuel img t0 = some t)
    (hout : limiar_filter fuel t0 img = some out) (hi : i < H) (hj : j < W) :
    (mget out i j = 0 ∨ mget out i j = 1) ∧
      (mget out i j = 1 ↔ t < mget img i j) := by
  have hH : 0 < H := by omega
  have hlen : img.length = H := hwf.1
  have hwid : mwidth img = W := mwidth_eq img H W hwf hH
  unfold limiar_filter at hout
  rw [ht] at hout
  simp only [Option.map_some', Option.some.injEq] at hout
  subst hout
  unfold limiar_run
  rw [filterLoop_get 0 _ 0 img.length 0 (mwidth img) (img, img) H W hwf
    (Nat.le_refl 0) (Nat.le_refl 0) (by omega) (by omega) i j]
  rw [if_pos (by omega)]
  by_cases hlt : t < mget img i j
  · constructor
    · right; simp [hlt]
    · simp [hlt]
  · constructor
    · left; simp [hlt]
    · simp [hlt]

/-- C6 witness: on the raster [[0, 2000]] with seed 1000 the solver converges
to 1000 in one step and the filter outputs [[0, 1]]; cell (0,1) is 1 exactly
because 2000 > 1000. -/
theorem thresholdFilter_binary_cells_witness :
    (mget [[0, 1]] 0 1 = 0 ∨ mget [[0, 1]] 0 1 = 1) ∧
      (mget [[0, 1]] 0 1 = 1 ↔ (1000 : ℚ) < mget [[0, 2000]] 0 1) :=
  thresholdFilter_binary_cells 1 1000 1000 [[0, 2000]] [[0, 1]] 1 2 0 1
    ⟨rfl, by decide⟩ (by norm_num [find_optimum_threshold, threshold_step, mflatten])
    (by norm_num [limiar_filter, find_optimum_threshold, threshold_step,
      mflatten, limiar_run, filterLoop, rowLoop, cellWrite, mset, mget,
      mwidth, List.range']) (by decide) (by decide)

/-- C7: every border cell — row or column index within padding = (K−1)/2 of an
edge — of the pre-threshold intermediate raster `simple_filter` equals the
corresponding input cell: the convolution loop only writes interior indices
`range(padding, dim − padding)` into a copy of the input. -/
theorem simple_filter_border_passthrough (size : ℕ) (weights img : Mat)
    (H W i j : ℕ) (hwf : WfMat img H W) (_hodd : Odd size) (hi : i < H)
    (hj : j < W)
    (hb : i < (size - 1) / 2 ∨ H - (size - 1) / 2 ≤ i ∨
      j < (size - 1) / 2 ∨ W - (size - 1) / 2 ≤ j) :
    mget (simple_filter size weights img) i j = mget img i j := by
  have hH : 0 < H := by omega
  have hlen : img.length = H := hwf.1
  have hwid : mwidth img = W := mwidth_eq img H W hwf hH
  unfold simple_filter simple_run
  rw [filterLoop_get 0 _ ((size - 1) / 2) _ ((size - 1) / 2) _ (img, img) H W
    hwf (Nat.zero_le _) (Nat.zero_le _) (by omega) (by omega) i j]
  rw [if_neg (by omega)]

/-- C7 witness: with the 3×3 kernel that doubles the centre cell, the border
cell (0,1) of the 3×3 raster passes through unchanged. -/
theorem simple_filter_border_passthrough_witness :
    mget (simple_filter 3 [[0, 0, 0], [0, 2, 0], [0, 0, 0]]
        [[1, 2, 3], [4, 5, 6], [7, 8, 9]]) 0 1 =
      mget [[1, 2, 3], [4, 5, 6], [7, 8, 9]] 0 1 :=
  simple_filter_border_passthrough 3 [[0, 0, 0], [0, 2, 0], [0, 0, 0]]
    [[1, 2, 3], [4, 5, 6], [7, 8, 9]] 3 3 0 1 ⟨rfl, by decide⟩ ⟨1, by decide⟩
    (by decide) (by decide) (Or.inl (by decide))

/-! ## Threshold solver: determinism and the stopping condition -/

theorem solver_det (img : Mat) : ∀ n m : ℕ, ∀ t0 r r' : ℚ,
    find_optimum_threshold n img t0 = some r →
    find_optimum_threshold m img t0 = some r' → r = r' := by
  intro n
  induction n with
  | zero =>
    intro m t0 r r' hn _
    simp [find_optimum_threshold] at hn
  | succ n ih =>
    intro m t0 r r' hn hm
    cases m with
    | zero => simp [find_optimum_threshold] at hm
    | succ m =>
      cases hstep : threshold_step img t0 with
      | none =>
        simp only [find_optimum_threshold, hstep] at hn
        exact absurd hn (by simp)
      | some t1 =>
        simp only [find_optimum_threshold, hstep] at hn hm
        by_cases hle : t1 - t0 ≤ 1/2
        · rw [if_pos hle] at hn hm
          rw [← Option.some.inj hn, ← Option.some.inj hm]
        · rw [if_neg hle] at hn hm
          exact ih m t1 r r' hn hm

theorem solver_last_step (img : Mat) : ∀ n : ℕ, ∀ t0 r : ℚ,
    find_optimum_threshold n img t0 = some r →
    ∃ tc, threshold_step img tc = some r ∧ r - tc ≤ 1/2 := by
  intro n
  induction n with
  | zero =>
    intro t0 r hn
    simp [find_optimum_threshold] at hn
  | succ n ih =>
    intro t0 r hn
    cases hstep : threshold_step img t0 with
    | none =>
      simp only [find_optimum_threshold, hstep] at hn
      exact absurd hn (by simp)
    | some t1 =>
      simp only [find_optimum_threshold, hstep] at hn
      by_cases hle : t1 - t0 ≤ 1/2
      · rw [if_pos hle] at hn
        have ht1 := Option.some.inj hn
        subst ht1
        exact ⟨t0, hstep, hle⟩
      · rw [if_neg hle] at hn
        exact ih t1 r hn

/-- C4 (amended): the solver is deterministic — whenever it returns on a given
raster and seed it returns the same converged threshold regardless of the
iteration budget — and at the returned value `next − current ≤ 0.5` holds for
the *signed* difference, where `current` is the threshold of the final
iteration and `next` the returned value.  The claim's absolute-value bound
`|next − current| ≤ 0.5` fails (see the counterexample): the source checks
`new_t - optimum_t <= 0.5` without taking the absolute value, so the solver
also stops whenever the threshold decreases by any amount. -/
theorem thresholdSolver_deterministic_signed_stop (img : Mat) (t0 : ℚ)
    (n m : ℕ) (r r' : ℚ) (hn : find_optimum_threshold n img t0 = some r)
    (hm : find_optimum_threshold m img t0 = some r') :
    r = r' ∧ ∃ tc, threshold_step img tc = some r ∧ r - tc ≤ 1/2 :=
  ⟨solver_det img n m t0 r r' hn hm, solver_last_step img n t0 r hn⟩

/-- C4 witness: on [[0, 2000]] from seed 1000 the solver converges to 1000 in
one iteration, with any iteration budget. -/
theorem thresholdSolver_deterministic_signed_stop_witness :
    (1000 : ℚ) = 1000 ∧
      ∃ tc, threshold_step [[0, 2000]] tc = some 1000 ∧
        (1000 : ℚ) - tc ≤ 1/2 :=
  thresholdSolver_deterministic_signed_stop [[0, 2000]] 1000 1 1 1000 1000
    (by norm_num [find_optimum_threshold, threshold_step, mflatten])
    (by norm_num [find_optimum_threshold, threshold_step, mflatten])

/-- C4 counterexample: on the raster [[0, 1, 2000]] with seed 1500 the solver
returns next = (2000/1 + 1/2)/2 = 4001/4 = 1000.25 in a single iteration
(current = 1500), because next − current = −499.75 ≤ 0.5; but
|next − current| = 499.75 > 0.5, refuting the claimed absolute-value bound at
the returned value. -/
theorem thresholdSolver_abs_bound_counterexample :
    find_optimum_threshold 1 [[0, 1, 2000]] 1500 = some (4001/4) ∧
      ¬ |(4001/4 : ℚ) - 1500| ≤ 1/2 := by
  constructor
  · norm_num [find_optimum_threshold, threshold_step, mflatten]
  · have hv : (4001/4 : ℚ) - 1500 = -(1999/4) := by norm_num
    rw [hv, abs_neg, abs_of_nonneg (by norm_num)]
    norm_num

/-- C1: evidence that the median filter is off by one.  On the 3×5 all-7
raster with K = 5 (padding = 2) the code's loop `for i in range(padding,
H + 1)` computes only output rows 0..H−padding, so cell (2,2) keeps its
`np.zeros` value 0, while the claimed median — index (K²−1)/2 = 12 of the
ascending sort of the zero-padded 5×5 neighborhood, which holds 15 sevens and
10 zeros — is 7. -/
theorem medianFilter_offbyone_cell :
    (median_apply 5 [[7, 7, 7, 7, 7], [7, 7, 7, 7, 7], [7, 7, 7, 7, 7]]).map
        (fun out => mget out 2 2) = some 0 ∧
      median_spec 5 [[7, 7, 7, 7, 7], [7, 7, 7, 7, 7], [7, 7, 7, 7, 7]] 2 2
        = 7 := by
  constructor
  · decide
  · decide

/-- C2: evidence that the 1D convolution is off by one.  With K = 5
(padding = 2), the centred unit kernel [0,0,1,0,0] and the 1×5 raster
[1,2,3,4,5], the code's loop `for k in range(padding, H*W + 1)` writes
`result[k-1]` for k ≥ padding only, so flat index 0 keeps its `np.zeros`
value 0 and the output is [[0,2,3,4,5]], while the claimed output — every
flat index equal to the dot product of the reversed kernel with the
circularly padded window centred there — is the identity [[1,2,3,4,5]]. -/
theorem filter1d_offbyone_cell :
    filter1d_apply 5 [0, 0, 1, 0, 0] [[1, 2, 3, 4, 5]]
        = some [[0, 2, 3, 4, 5]] ∧
      filter1d_spec 5 [0, 0, 1, 0, 0] [[1, 2, 3, 4, 5]]
        = [[1, 2, 3, 4, 5]] := by
  constructor
  · norm_num [filter1d_apply, create_circular_array, filter1d_result,
      mflatten, matOfFn, dotp, mwidth, List.range']
  · norm_num [filter1d_spec, mflatten, matOfFn, dotp, mwidth, List.range']

/-- C3: evidence that the K = 1 median filter is not the identity: on the
spec's own concrete scenario [[10,20],[30,40]] the assignment
`aux_img[0:-0, 0:-0] = img` targets an empty slice, numpy raises a broadcast
`ValueError`, and no raster is returned at all. -/
theorem medianFilter_size_one_error :
    median_apply 1 [[10, 20], [30, 40]] = none := rfl

/-- C8 (amended): filter construction performs no parameter validation and no
`InvalidParameter` error exists: the factory dispatches on the method id
alone, and the 1D-filter constructor accepts any kernel size — even, zero, or
otherwise — together with any token list of length at most `size`, silently
zero-filling missing weights; the only construction-time failure is an
unhandled numpy `IndexError` when more weights than the declared size are
supplied. -/
theorem factory_no_parameter_validation (size : ℕ) (tokens : List ℚ) :
    init_filter 2 = some FilterKind.f1dK ∧
      (tokens.length ≤ size →
        ∃ w, filter1d_init size tokens = some (size, w) ∧ w.length = size) ∧
      (size < tokens.length → filter1d_init size tokens = none) := by
  refine ⟨rfl, ?_, ?_⟩
  · intro hle
    refine ⟨tokens ++ List.replicate (size - tokens.length) 0, ?_, ?_⟩
    · unfold filter1d_init
      rw [if_neg (by omega)]
    · simp only [List.length_append, List.length_replicate]
      omega
  · intro hlt
    unfold filter1d_init
    rw [if_pos hlt]

/-- C8 witness: size 3 with the single token [5] constructs successfully,
zero-filled to weights of length 3 — no error despite the count mismatch. -/
theorem factory_no_parameter_validation_witness :
    ∃ w, filter1d_init 3 [5] = some (3, w) ∧ w.length = 3 :=
  (factory_no_parameter_validation 3 [5]).2.1 (by decide)

/-- C8 counterexample: the even kernel size 2 with matching weight count is
accepted and a filter is constructed, refuting the claim that construction
fails with `InvalidParameter` for even sizes. -/
theorem factory_even_size_accepted :
    Even 2 ∧ filter1d_init 2 [1, 2] = some (2, [1, 2]) :=
  ⟨⟨1, rfl⟩, by decide⟩

/-- C9 (amended): `calc_rmse` performs no shape validation: it produces a
score exactly when the two shapes are numpy-broadcast-compatible (each
dimension pair equal or containing a 1), so rasters of different shapes such
as 2×2 vs 1×2 are scored silently (see the counterexample), and
non-broadcastable shapes abort with an untyped numpy broadcast `ValueError`,
not a `ShapeMismatch`. -/
theorem calc_rmse_no_shape_check (a b : Mat) (Ha Wa Hb Wb : ℕ)
    (hwa : WfMat a Ha Wa) (hwb : WfMat b Hb Wb) (hHa : 0 < Ha)
    (hHb : 0 < Hb) :
    (calc_rmse_core a b).isSome = true ↔
      ((Ha = Hb ∨ Ha = 1 ∨ Hb = 1) ∧ (Wa = Wb ∨ Wa = 1 ∨ Wb = 1)) := by
  have h1 : a.length = Ha := hwa.1
  have h2 : b.length = Hb := hwb.1
  have h3 : mwidth a = Wa := mwidth_eq a Ha Wa hwa hHa
  have h4 : mwidth b = Wb := mwidth_eq b Hb Wb hwb hHb
  unfold calc_rmse_core np_sub
  rw [h1, h2, h3, h4]
  by_cases h : (Ha = Hb ∨ Ha = 1 ∨ Hb = 1) ∧ (Wa = Wb ∨ Wa = 1 ∨ Wb = 1)
  · rw [if_pos h]
    simp [h]
  · rw [if_neg h]
    simp [h]

/-- C9 witness: the shape-check theorem instantiated on two 2×2 rasters. -/
theorem calc_rmse_no_shape_check_witness :
    (calc_rmse_core [[3, 4], [1, 2]] [[5, 6], [7, 8]]).isSome = true ↔
      (((2 : ℕ) = 2 ∨ (2 : ℕ) = 1 ∨ (2 : ℕ) = 1) ∧
        ((2 : ℕ) = 2 ∨ (2 : ℕ) = 1 ∨ (2 : ℕ) = 1)) :=
  calc_rmse_no_shape_check [[3, 4], [1, 2]] [[5, 6], [7, 8]] 2 2 2 2
    ⟨rfl, by decide⟩ ⟨rfl, by decide⟩ (by decide) (by decide)

/-- C9 counterexample: the 2×2 raster [[3,4],[1,2]] and the 1×2 raster
[[1,2]] have different shapes, yet `calc_rmse` silently broadcasts the
subtraction and produces the score mse = ((3−1)² + (4−2)² + 0 + 0)/4 = 2
instead of failing with a `ShapeMismatch`. -/
theorem calc_rmse_broadcast_score :
    calc_rmse_core [[3, 4], [1, 2]] [[1, 2]] = some 2 ∧
      ([[3, 4], [1, 2]] : Mat).length ≠ ([[1, 2]] : Mat).length := by
  constructor
  · norm_num [calc_rmse_core, np_sub, matOfFn, mget, mwidth, mflatten,
      List.range']
  · decide
